import Mathlib

/-!
Formal model of the Shift Generation & Compliance Engine of the shift-bot
repository: the `Shift` data model (`models/shift.py`), the revision ledger
(`models/shift_revision.py`), the labor-law compliance checker
(`utils/labor_law.py`), the approval-workflow service
(`services/shift_approval.py`) and the optimizer's shift-construction step
(`services/shift_optimizer.py`), together with theorems settling the
specification claims about them.

Conventions of the embedding:
* Python `datetime.time` values become the `Time` structure (hour, minute).
* Python `datetime.date` values become `Date := Nat`, a day count in the
  proleptic Gregorian calendar (rata die with epoch 0000-03-01); adding
  `timedelta(days=1)` is `+ 1`, and the `<`/`≤` order on day counts agrees
  with the order on dates.  `year`, and the ISO week number used by the
  weekly-hours rule, are computed from the day count by the standard civil
  calendar conversion, mirroring `date.year` and `date.isocalendar()[1]`.
* Python floats hold only values of the form (integer minutes)/60 in this
  code, so float durations are modelled exactly by rationals; hour totals
  are accumulated as integer minute counts and converted with
  `Rat.divInt m 60` at each comparison, which is exact (`hours_minutes_lt`
  below justifies the scaling).
* Python dicts keep insertion order; they are modelled by association
  lists where a new key is appended at the end (`accAdd`).
* Database sessions become explicit state passing: a service operation
  takes the list of stored shifts and returns the success flag together
  with the updated list (and the revision rows it appended).
* `datetime.now()` timestamps are an opaque `Nat` supplied by the caller.
-/

/-- Model of Python `datetime.time`: hour and minute fields (seconds are
never used by this code). -/
structure Time where
  hour : Nat
  minute : Nat
deriving DecidableEq, Repr

/-- Day count in the proleptic Gregorian calendar (epoch 0000-03-01),
modelling Python `datetime.date`; `+ 1` is `timedelta(days=1)`. -/
abbrev Date := Nat

/-- Civil-to-day-count conversion (Gregorian calendar, epoch 0000-03-01),
used to build concrete dates; standard era/year-of-era arithmetic. -/
def daysFromCivil (y m d : Nat) : Date :=
  let y' := y - (if m ≤ 2 then 1 else 0)
  let era := y' / 400
  let yoe := y' % 400
  let mp := (m + 9) % 12
  let doy := (153 * mp + 2) / 5 + d - 1
  let doe := yoe * 365 + yoe / 4 - yoe / 100 + doy
  era * 146097 + doe

/-- Calendar year of a day count (the `date.year` attribute). -/
def Date.year (z : Date) : Nat :=
  let era := z / 146097
  let doe := z % 146097
  let yoe := (doe - doe / 1460 + doe / 36524 - doe / 146096) / 365
  let y := yoe + era * 400
  let doy := doe - (365 * yoe + yoe / 4 - yoe / 100)
  let mp := (5 * doy + 2) / 153
  let m := if mp < 10 then mp + 3 else mp - 9
  if m ≤ 2 then y + 1 else y

/-- ISO weekday of a day count, Monday = 1 .. Sunday = 7
(0000-03-01 was a Wednesday). -/
def Date.isoWeekday (z : Date) : Nat :=
  (z + 2) % 7 + 1

/-- Day-of-year (1-based ordinal date) of a day count. -/
def Date.ordinalDay (z : Date) : Nat :=
  z - daysFromCivil z.year 1 1 + 1

/-- Helper for the ISO-week rule: `p y = 4` detects years whose 1 January
or 31 December shifts the 53-week pattern. -/
def isoYearP (y : Nat) : Nat :=
  (y + y / 4 - y / 100 + y / 400) % 7

/-- Number of ISO weeks (52 or 53) in a calendar year. -/
def isoWeeksInYear (y : Nat) : Nat :=
  if isoYearP y = 4 ∨ isoYearP (y - 1) = 3 then 53 else 52

/-- ISO week number of a day count, as returned by Python
`date.isocalendar()[1]`. -/
def Date.isoWeek (z : Date) : Nat :=
  let w := (z.ordinalDay + 10 - z.isoWeekday) / 7
  if w = 0 then isoWeeksInYear (z.year - 1)
  else if w > isoWeeksInYear z.year then 1
  else w

/-- Workflow states of a shift (`ShiftStatus` enum in `models/shift.py`). -/
inductive ShiftStatus where
  | draft
  | adjusting
  | adjusted
  | pending
  | approved
  | published
  | rejected
deriving DecidableEq, Repr

/-- Row of the `shifts` table (`Shift` model in `models/shift.py`).
`user_name` stands for the joined `user.name` relationship (`none` when no
user row is joined); audit columns unused by any claim (skill level,
predicted traffic) are omitted. -/
structure Shift where
  id : Nat
  group_id : String
  user_id : Nat
  user_name : Option String := none
  date : Date
  start_time : Option Time
  end_time : Option Time
  status : ShiftStatus
  version : Nat := 1
  created_by : Nat
  created_at : Nat := 0
  adjusted_by : Option Nat := none
  adjusted_at : Option Nat := none
  approved_by : Option Nat := none
  approved_at : Option Nat := none
  published_by : Option Nat := none
  published_at : Option Nat := none
  rejected_by : Option Nat := none
  rejected_at : Option Nat := none
  rejection_reason : Option String := none
deriving DecidableEq, Repr

/-- `Shift.can_publish`: the shift may be published iff approved. -/
def Shift.can_publish (s : Shift) : Bool :=
  s.status = ShiftStatus.approved

/-- `Shift.can_edit`: editable iff status is draft, adjusting or adjusted. -/
def Shift.can_edit (s : Shift) : Bool :=
  s.status = ShiftStatus.draft ∨ s.status = ShiftStatus.adjusting ∨
    s.status = ShiftStatus.adjusted

/-- `Shift.can_approve`: approvable iff status is adjusted or pending. -/
def Shift.can_approve (s : Shift) : Bool :=
  s.status = ShiftStatus.adjusted ∨ s.status = ShiftStatus.pending

/-- `Shift.can_reject`: rejectable iff status is adjusting, adjusted,
pending or approved. -/
def Shift.can_reject (s : Shift) : Bool :=
  s.status = ShiftStatus.adjusting ∨ s.status = ShiftStatus.adjusted ∨
    s.status = ShiftStatus.pending ∨ s.status = ShiftStatus.approved

/-- `Shift.is_published`. -/
def Shift.is_published (s : Shift) : Bool :=
  s.status = ShiftStatus.published

/-- Worked minutes of a shift: the body of `Shift.get_duration_hours`
before the final division by 60.0 — start/end converted to minutes since
midnight, with 24h added to the end when it is strictly earlier than the
start (midnight crossing), and 0 when either time is missing. -/
def Shift.durationMinutes (s : Shift) : Int :=
  match s.start_time, s.end_time with
  | some st, some et =>
      let start_minutes : Int := st.hour * 60 + st.minute
      let end_minutes : Int := et.hour * 60 + et.minute
      let end_minutes := if end_minutes < start_minutes
        then end_minutes + 24 * 60 else end_minutes
      end_minutes - start_minutes
  | _, _ => 0

/-- `Shift.get_duration_hours`: worked hours as an exact rational
(`duration_minutes / 60.0` in the source; 0.0 when a time is missing). -/
def Shift.get_duration_hours (s : Shift) : ℚ :=
  match s.start_time, s.end_time with
  | some _, some _ => Rat.divInt s.durationMinutes 60
  | _, _ => 0

theorem get_duration_hours_eq_divInt (s : Shift) :
    s.get_duration_hours = Rat.divInt s.durationMinutes 60 := by
  unfold Shift.get_duration_hours Shift.durationMinutes
  cases s.start_time <;> cases s.end_time <;> simp

/-- Scaling lemma justifying the minute-count bookkeeping: comparing an
hour value `m/60` against an integer cap is the same as comparing the
minute count against 60 times the cap. -/
theorem hours_minutes_lt (c m : ℤ) : (c : ℚ) < Rat.divInt m 60 ↔ 60 * c < m := by
  rw [Rat.divInt_eq_div, lt_div_iff₀ (by norm_num : (0 : ℚ) < ((60 : ℤ) : ℚ))]
  rw [show ((c : ℚ) * ((60 : ℤ) : ℚ)) = ((c * 60 : ℤ) : ℚ) by push_cast; ring]
  rw [Int.cast_lt]
  omega

/-- C4. `get_duration_hours` returns end − start in hours: when the
start is not after the end the result is `(end − start)/60` (minutes), and
when the end is strictly earlier than the start, 24 hours (1440 minutes)
are added before subtracting, interpreting the shift as crossing
midnight.  The 22:00–02:00 ⇒ 4.0h example is the witness below. -/
theorem get_duration_hours_spec (s : Shift) (st et : Time)
    (hst : s.start_time = some st) (het : s.end_time = some et) :
    (((st.hour * 60 + st.minute : Int) ≤ (et.hour * 60 + et.minute : Int)) →
      s.get_duration_hours =
        Rat.divInt ((et.hour * 60 + et.minute : Int) -
          (st.hour * 60 + st.minute : Int)) 60) ∧
    (((et.hour * 60 + et.minute : Int) < (st.hour * 60 + st.minute : Int)) →
      s.get_duration_hours =
        Rat.divInt ((et.hour * 60 + et.minute : Int) + 1440 -
          (st.hour * 60 + st.minute : Int)) 60) := by
  constructor <;> intro h <;>
    simp only [Shift.get_duration_hours, Shift.durationMinutes, hst, het]
  · rw [if_neg (by omega)]
  · rw [if_pos (by omega)]
    norm_num

/-- Sample shift used by the C4 witness: 22:00 → 02:00. -/
def sampleMidnightShift : Shift :=
  { id := 1, group_id := "g1", user_id := 1, date := daysFromCivil 2024 3 4,
    start_time := some ⟨22, 0⟩, end_time := some ⟨2, 0⟩,
    status := ShiftStatus.draft, created_by := 9 }

/-- Witness for C4: a 22:00–02:00 shift crosses midnight and lasts
exactly 4.0 hours. -/
theorem get_duration_hours_spec_witness :
    sampleMidnightShift.get_duration_hours = (4 : ℚ) := by
  have h := (get_duration_hours_spec sampleMidnightShift ⟨22, 0⟩ ⟨2, 0⟩
    rfl rfl).2 (by decide)
  rw [h]
  decide

/-- Thresholds consumed by the checker (`Config` in `config.py`; integer
environment values with defaults 8 / 40 / 6). -/
structure LaborConfig where
  MAX_WORK_HOURS_PER_DAY : Int := 8
  MAX_WORK_HOURS_PER_WEEK : Int := 40
  MAX_CONSECUTIVE_WORK_DAYS : Int := 6
deriving DecidableEq, Repr

/-- Violation record (`LaborLawViolation` in `utils/labor_law.py`). -/
structure LaborLawViolation where
  user_id : Nat
  user_name : String
  violation_type : String
  details : String
  severity : String
deriving DecidableEq, Repr

/-- One-decimal display of `m` minutes as hours (the `f"{hours:.1f}"`
part of the detail strings).  Rounds half away from zero where binary
float formatting would round to the nearest representable; no claim
depends on the difference. -/
def hoursTenthsStr (m : Int) : String :=
  let t := ((m + 3) / 6).toNat
  toString (t / 10) ++ "." ++ toString (t % 10)

/-- Display of a date inside a detail string.  Stands for Python's
ISO `YYYY-MM-DD` rendering; both renderings are injective in the date and
no claim depends on the display format. -/
def dateStr (d : Date) : String :=
  toString d

/-- Detail string of a daily-hours violation. -/
def dailyDetails (d : Date) (m : Int) (cap : Int) : String :=
  dateStr d ++ ": " ++ hoursTenthsStr m ++ "時間（上限" ++ toString cap ++ "時間）"

/-- Week key of the weekly-hours rule: the pair behind the
`f"{date.year}-W{date.isocalendar()[1]}"` dict key (calendar year plus
ISO week number; the string formatting is injective on the pair). -/
def weekKey (d : Date) : Nat × Nat :=
  (d.year, d.isoWeek)

/-- Detail string of a weekly-hours violation. -/
def weeklyDetails (k : Nat × Nat) (m : Int) (cap : Int) : String :=
  toString k.1 ++ "-W" ++ toString k.2 ++ ": " ++ hoursTenthsStr m ++
    "時間（上限" ++ toString cap ++ "時間）"

/-- Detail string of a consecutive-days violation. -/
def consecDetails (c : Nat) (cap : Int) : String :=
  toString c ++ "日連続勤務（上限" ++ toString cap ++ "日）"

/-- Python dict accumulation `d.setdefault(k, 0); d[k] += v` on an
insertion-ordered association list: an existing key is updated in place,
a new key is appended at the end. -/
def accAdd {κ : Type} [DecidableEq κ] (k : κ) (v : Int) :
    List (κ × Int) → List (κ × Int)
  | [] => [(k, v)]
  | (k', v') :: rest =>
      if k = k' then (k', v' + v) :: rest else (k', v') :: accAdd k v rest

/-- The `for key, hours in d.items(): if hours > cap: return …` scan:
first entry whose hour total (minute count divided by 60) exceeds the
cap. -/
def firstExceed {κ : Type} (cap : Int) : List (κ × Int) → Option (κ × Int)
  | [] => none
  | (k, m) :: rest =>
      if (cap : ℚ) < Rat.divInt m 60 then some (k, m) else firstExceed cap rest

/-- The `daily_hours` dict of `check_daily_work_hours`: per-date minute
totals of one worker's shifts, in first-insertion key order. -/
def dailyTotals (shifts : List Shift) (user_id : Nat) : List (Date × Int) :=
  (shifts.filter (fun s => s.user_id == user_id)).foldl
    (fun acc s => accAdd s.date s.durationMinutes acc) []

/-- The `weekly_hours` dict of `check_weekly_work_hours`: per-week minute
totals of one worker's shifts, keyed by `weekKey`. -/
def weeklyTotals (shifts : List Shift) (user_id : Nat) : List ((Nat × Nat) × Int) :=
  (shifts.filter (fun s => s.user_id == user_id)).foldl
    (fun acc s => accAdd (weekKey s.date) s.durationMinutes acc) []

/-- Violation record built by `check_daily_work_hours` for an offending
date entry. -/
def dailyViolation (cfg : LaborConfig) (user_id : Nat) (user_name : String)
    (p : Date × Int) : LaborLawViolation :=
  { user_id := user_id, user_name := user_name,
    violation_type := "daily_hours_exceeded",
    details := dailyDetails p.1 p.2 cfg.MAX_WORK_HOURS_PER_DAY,
    severity := "critical" }

/-- Violation record built by `check_weekly_work_hours` for an offending
week entry. -/
def weeklyViolation (cfg : LaborConfig) (user_id : Nat) (user_name : String)
    (p : (Nat × Nat) × Int) : LaborLawViolation :=
  { user_id := user_id, user_name := user_name,
    violation_type := "weekly_hours_exceeded",
    details := weeklyDetails p.1 p.2 cfg.MAX_WORK_HOURS_PER_WEEK,
    severity := "critical" }

/-- `LaborLawChecker.check_daily_work_hours`: group the worker's shifts
by date, sum the durations, and return a critical violation for the first
date whose total exceeds `MAX_WORK_HOURS_PER_DAY` (hour totals are kept
as minute counts, compared via `Rat.divInt`; see `hours_minutes_lt`). -/
def check_daily_work_hours (cfg : LaborConfig) (shifts : List Shift)
    (user_id : Nat) (user_name : String) : Option LaborLawViolation :=
  (firstExceed cfg.MAX_WORK_HOURS_PER_DAY (dailyTotals shifts user_id)).map
    (dailyViolation cfg user_id user_name)

/-- `LaborLawChecker.check_weekly_work_hours`: group the worker's shifts
by `(calendar year, ISO week number)`, sum the durations, and return a
critical violation for the first week whose total exceeds
`MAX_WORK_HOURS_PER_WEEK`. -/
def check_weekly_work_hours (cfg : LaborConfig) (shifts : List Shift)
    (user_id : Nat) (user_name : String) : Option LaborLawViolation :=
  (firstExceed cfg.MAX_WORK_HOURS_PER_WEEK (weeklyTotals shifts user_id)).map
    (weeklyViolation cfg user_id user_name)

/-- `LaborLawChecker.check_rest_time`: per single shift, a warning
requiring 45 min rest when the duration is in (6h, 8h], and one requiring
60 min rest when it exceeds 8h (thresholds are the literals of the
source). -/
def check_rest_time (s : Shift) : Option LaborLawViolation :=
  let duration := s.get_duration_hours
  if 6 < duration ∧ duration ≤ 8 then
    some { user_id := s.user_id, user_name := s.user_name.getD "不明",
           violation_type := "rest_time_required",
           details := dateStr s.date ++ ": " ++ hoursTenthsStr s.durationMinutes ++
             "時間勤務（45分以上の休憩が必要）",
           severity := "warning" }
  else if 8 < duration then
    some { user_id := s.user_id, user_name := s.user_name.getD "不明",
           violation_type := "rest_time_required",
           details := dateStr s.date ++ ": " ++ hoursTenthsStr s.durationMinutes ++
             "時間勤務（60分以上の休憩が必要）",
           severity := "warning" }
  else none

/-- Stable insertion into a date-sorted shift list (the new shift goes
before the first strictly later one and after equal dates inserted
later in the recursion, so `sortByDate` is stable like Python
`sorted(key=lambda s: s.date)`). -/
def insertByDate (s : Shift) : List Shift → List Shift
  | [] => [s]
  | t :: ts => if s.date ≤ t.date then s :: t :: ts else t :: insertByDate s ts

/-- Stable sort of shifts by date (`sorted(user_shifts, key=…date)`). -/
def sortByDate : List Shift → List Shift
  | [] => []
  | s :: ss => insertByDate s (sortByDate ss)

/-- Violation record built by `check_consecutive_work_days` when the
streak reaches `c` days. -/
def consecViolation (cap : Int) (uid : Nat) (uname : String) (c : Nat) :
    LaborLawViolation :=
  { user_id := uid, user_name := uname,
    violation_type := "consecutive_days_exceeded",
    details := consecDetails c cap,
    severity := "critical" }

/-- Walk of `check_consecutive_work_days` over the date-sorted shifts:
a gap of exactly one day extends the streak and is checked against the
cap immediately (returning on the first excess); any other gap resets the
streak to 1; both branches advance `prev_date`. -/
def consecLoop (cap : Int) (uid : Nat) (uname : String) :
    Nat → Date → List Shift → Option LaborLawViolation
  | _, _, [] => none
  | consecutive_days, prev_date, s :: rest =>
      if s.date = prev_date + 1 then
        if ((consecutive_days + 1 : Nat) : Int) > cap then
          some (consecViolation cap uid uname (consecutive_days + 1))
        else consecLoop cap uid uname (consecutive_days + 1) s.date rest
      else consecLoop cap uid uname 1 s.date rest

/-- `LaborLawChecker.check_consecutive_work_days`: sort the worker's
shifts by date ascending and walk them with `consecLoop`, starting with a
streak of 1 at the first date. -/
def check_consecutive_work_days (cfg : LaborConfig) (shifts : List Shift)
    (user_id : Nat) (user_name : String) : Option LaborLawViolation :=
  let user_shifts := shifts.filter (fun s => s.user_id == user_id)
  match sortByDate user_shifts with
  | [] => none
  | first :: rest =>
      consecLoop cfg.MAX_CONSECUTIVE_WORK_DAYS user_id user_name 1 first.date rest

/-- Enumeration of `set(shift.user_id for shift in shifts)` in
first-occurrence order.  CPython's set iteration order is
implementation-defined; the model fixes first-occurrence order, and the
concrete inputs used below are chosen so that no result depends on which
enumeration the set uses (each id still occurs exactly once). -/
def firstOccurrencesGo (seen : List Nat) : List Nat → List Nat
  | [] => []
  | x :: xs =>
      if x ∈ seen then firstOccurrencesGo seen xs
      else x :: firstOccurrencesGo (x :: seen) xs

/-- First-occurrence enumeration of a list of ids (see
`firstOccurrencesGo`). -/
def firstOccurrences (l : List Nat) : List Nat :=
  firstOccurrencesGo [] l

/-- `LaborLawChecker.check_all_violations`: for each distinct worker, the
daily, weekly and consecutive-days checks are appended in that order
(workers with no shifts are skipped), and afterwards the per-shift
rest-time check is appended for every shift in input order. -/
def check_all_violations (cfg : LaborConfig) (shifts : List Shift) :
    List LaborLawViolation :=
  let user_ids := firstOccurrences (shifts.map (fun s => s.user_id))
  let violations := user_ids.foldl (fun acc uid =>
    let user_shifts := shifts.filter (fun s => s.user_id == uid)
    match user_shifts with
    | [] => acc
    | first :: _ =>
        let user_name := first.user_name.getD "不明"
        ((acc ++ (check_daily_work_hours cfg shifts uid user_name).toList)
          ++ (check_weekly_work_hours cfg shifts uid user_name).toList)
          ++ (check_consecutive_work_days cfg shifts uid user_name).toList) []
  shifts.foldl (fun acc s => acc ++ (check_rest_time s).toList) violations

theorem firstExceed_eq_find? {κ : Type} (cap : Int) (l : List (κ × Int)) :
    firstExceed cap l =
      l.find? (fun p => decide ((cap : ℚ) < Rat.divInt p.2 60)) := by
  induction l with
  | nil => rfl
  | cons p rest ih =>
      obtain ⟨k, m⟩ := p
      by_cases h : (cap : ℚ) < Rat.divInt m 60 <;>
        simp [firstExceed, List.find?, h, ih]

/-- Violations contributed by one worker inside `check_all_violations`:
daily, weekly and consecutive-days results in that order (empty when the
worker has no shifts, mirroring the `continue`). -/
def userBlock (cfg : LaborConfig) (shifts : List Shift) (uid : Nat) :
    List LaborLawViolation :=
  match shifts.filter (fun s => s.user_id == uid) with
  | [] => []
  | first :: _ =>
      let user_name := first.user_name.getD "不明"
      (check_daily_work_hours cfg shifts uid user_name).toList ++
        (check_weekly_work_hours cfg shifts uid user_name).toList ++
        (check_consecutive_work_days cfg shifts uid user_name).toList

theorem foldl_append_chunks {α V : Type} (f : α → List V) :
    ∀ (l : List α) (acc : List V),
      l.foldl (fun acc x => acc ++ f x) acc = acc ++ l.flatMap f := by
  intro l
  induction l with
  | nil => intro acc; simp
  | cons x xs ih => intro acc; simp [List.foldl_cons, ih, List.append_assoc]

theorem flatMap_toList_eq_filterMap {α β : Type} (f : α → Option β) :
    ∀ l : List α, (l.flatMap fun a => (f a).toList) = l.filterMap f := by
  intro l
  induction l with
  | nil => rfl
  | cons x xs ih =>
      cases h : f x <;> simp [List.flatMap_cons, h, ih, List.filterMap_cons]

theorem check_all_violations_eq (cfg : LaborConfig) (shifts : List Shift) :
    check_all_violations cfg shifts =
      (firstOccurrences (shifts.map (fun s => s.user_id))).flatMap
        (userBlock cfg shifts) ++
        shifts.filterMap check_rest_time := by
  unfold check_all_violations
  have hbody : (fun (acc : List LaborLawViolation) (uid : Nat) =>
      match shifts.filter (fun s => s.user_id == uid) with
      | [] => acc
      | first :: _ =>
          let user_name := first.user_name.getD "不明"
          ((acc ++ (check_daily_work_hours cfg shifts uid user_name).toList)
            ++ (check_weekly_work_hours cfg shifts uid user_name).toList)
            ++ (check_consecutive_work_days cfg shifts uid user_name).toList) =
      fun acc uid => acc ++ userBlock cfg shifts uid := by
    funext acc uid
    cases h : shifts.filter (fun s => s.user_id == uid) with
    | nil => simp [userBlock, h]
    | cons first rest => simp [userBlock, h, List.append_assoc]
  rw [hbody]
  rw [foldl_append_chunks (fun s => (check_rest_time s).toList)]
  rw [foldl_append_chunks (userBlock cfg shifts)]
  rw [flatMap_toList_eq_filterMap]
  simp

theorem mem_firstOccurrencesGo {x : Nat} :
    ∀ (l seen : List Nat), x ∈ firstOccurrencesGo seen l → x ∈ l ∧ x ∉ seen := by
  intro l
  induction l with
  | nil => intro seen h; simp [firstOccurrencesGo] at h
  | cons y ys ih =>
      intro seen h
      unfold firstOccurrencesGo at h
      by_cases hy : y ∈ seen
      · rw [if_pos hy] at h
        have := ih seen h
        exact ⟨List.mem_cons_of_mem _ this.1, this.2⟩
      · rw [if_neg hy] at h
        rcases List.mem_cons.mp h with rfl | h'
        · exact ⟨List.mem_cons_self _ _, hy⟩
        · have := ih (y :: seen) h'
          exact ⟨List.mem_cons_of_mem _ this.1,
            fun hx => this.2 (List.mem_cons_of_mem _ hx)⟩

theorem firstOccurrencesGo_nodup :
    ∀ (l seen : List Nat), (firstOccurrencesGo seen l).Nodup := by
  intro l
  induction l with
  | nil => intro seen; simp [firstOccurrencesGo]
  | cons y ys ih =>
      intro seen
      unfold firstOccurrencesGo
      by_cases hy : y ∈ seen
      · rw [if_pos hy]; exact ih seen
      · rw [if_neg hy]
        refine List.nodup_cons.mpr ⟨fun hmem => ?_, ih (y :: seen)⟩
        exact (mem_firstOccurrencesGo ys (y :: seen) hmem).2 (List.mem_cons_self _ _)

theorem firstOccurrences_nodup (l : List Nat) : (firstOccurrences l).Nodup :=
  firstOccurrencesGo_nodup l []

theorem check_daily_some_form (cfg : LaborConfig) (shifts : List Shift)
    (uid : Nat) (uname : String) (v : LaborLawViolation)
    (h : check_daily_work_hours cfg shifts uid uname = some v) :
    ∃ p, v = dailyViolation cfg uid uname p := by
  unfold check_daily_work_hours at h
  obtain ⟨p, _, rfl⟩ := Option.map_eq_some'.mp h
  exact ⟨p, rfl⟩

theorem check_weekly_some_form (cfg : LaborConfig) (shifts : List Shift)
    (uid : Nat) (uname : String) (v : LaborLawViolation)
    (h : check_weekly_work_hours cfg shifts uid uname = some v) :
    ∃ p, v = weeklyViolation cfg uid uname p := by
  unfold check_weekly_work_hours at h
  obtain ⟨p, _, rfl⟩ := Option.map_eq_some'.mp h
  exact ⟨p, rfl⟩

theorem consecLoop_some_form (cap : Int) (uid : Nat) (uname : String) :
    ∀ (l : List Shift) (n : Nat) (d : Date) (v : LaborLawViolation),
      consecLoop cap uid uname n d l = some v →
      ∃ c, v = consecViolation cap uid uname c := by
  intro l
  induction l with
  | nil => intro n d v h; simp [consecLoop] at h
  | cons s rest ih =>
      intro n d v h
      unfold consecLoop at h
      by_cases h1 : s.date = d + 1
      · rw [if_pos h1] at h
        by_cases h2 : ((n + 1 : Nat) : Int) > cap
        · rw [if_pos h2] at h
          exact ⟨n + 1, (Option.some_inj.mp h).symm⟩
        · rw [if_neg h2] at h
          exact ih _ _ _ h
      · rw [if_neg h1] at h
        exact ih _ _ _ h

theorem check_consecutive_some_form (cfg : LaborConfig) (shifts : List Shift)
    (uid : Nat) (uname : String) (v : LaborLawViolation)
    (h : check_consecutive_work_days cfg shifts uid uname = some v) :
    ∃ c, v = consecViolation cfg.MAX_CONSECUTIVE_WORK_DAYS uid uname c := by
  simp only [check_consecutive_work_days] at h
  split at h
  · simp at h
  · exact consecLoop_some_form _ _ _ _ _ _ _ h

/-- C6. For every worker and shift set, the weekly-hours rule sums the
worker's durations per ISO calendar week, keyed by calendar year plus ISO
week number (`weeklyTotals`/`weekKey`), and returns a violation exactly
when some week's total exceeds `MAX_WORK_HOURS_PER_WEEK`; the violation
is of kind `weekly_hours_exceeded` with severity `critical` for that
worker. -/
theorem check_weekly_work_hours_spec (cfg : LaborConfig) (shifts : List Shift)
    (uid : Nat) (uname : String) :
    ((check_weekly_work_hours cfg shifts uid uname).isSome = true ↔
      ∃ p ∈ weeklyTotals shifts uid,
        (cfg.MAX_WORK_HOURS_PER_WEEK : ℚ) < Rat.divInt p.2 60) ∧
    (∀ v, check_weekly_work_hours cfg shifts uid uname = some v →
      v.violation_type = "weekly_hours_exceeded" ∧ v.severity = "critical" ∧
        v.user_id = uid ∧ v.user_name = uname) := by
  constructor
  · simp only [check_weekly_work_hours, Option.isSome_map', firstExceed_eq_find?]
    rw [List.find?_isSome]
    simp
  · intro v h
    obtain ⟨p, rfl⟩ := check_weekly_some_form cfg shifts uid uname v h
    exact ⟨rfl, rfl, rfl, rfl⟩

/-- Shifts used by the C6 witness: worker 1 works 20.5h on Monday
2024-03-04 and 20.5h on Tuesday 2024-03-05, 41h in ISO week 2024-W10. -/
def weeklyWitnessShifts : List Shift :=
  [{ id := 21, group_id := "gw", user_id := 1, user_name := some "A",
     date := daysFromCivil 2024 3 4, start_time := some ⟨0, 0⟩,
     end_time := some ⟨20, 30⟩, status := ShiftStatus.draft, created_by := 9 },
   { id := 22, group_id := "gw", user_id := 1, user_name := some "A",
     date := daysFromCivil 2024 3 5, start_time := some ⟨0, 0⟩,
     end_time := some ⟨20, 30⟩, status := ShiftStatus.draft, created_by := 9 }]

/-- Witness for C6: with the default 40h cap, the 41h week above is
flagged and the flag has the stated kind, severity and worker. -/
theorem check_weekly_work_hours_spec_witness :
    (weeklyViolation {} 1 "A" ((2024, 10), 2460)).violation_type =
        "weekly_hours_exceeded" ∧
      (weeklyViolation {} 1 "A" ((2024, 10), 2460)).severity = "critical" ∧
      (weeklyViolation {} 1 "A" ((2024, 10), 2460)).user_id = 1 ∧
      (weeklyViolation {} 1 "A" ((2024, 10), 2460)).user_name = "A" :=
  (check_weekly_work_hours_spec {} weeklyWitnessShifts 1 "A").2
    (weeklyViolation {} 1 "A" ((2024, 10), 2460)) (by decide)

theorem durationMinutes_of_missing (s : Shift)
    (h : s.start_time = none ∨ s.end_time = none) : s.durationMinutes = 0 := by
  unfold Shift.durationMinutes
  rcases h with h | h <;> rw [h]
  cases s.start_time <;> rfl

theorem get_duration_hours_of_missing (s : Shift)
    (h : s.start_time = none ∨ s.end_time = none) : s.get_duration_hours = 0 := by
  unfold Shift.get_duration_hours
  rcases h with h | h <;> rw [h]
  cases s.start_time <;> rfl

theorem firstExceed_accAdd_zero {κ : Type} [DecidableEq κ] (cap : Int)
    (hcap : 0 ≤ cap) (k : κ) :
    ∀ l, firstExceed cap (accAdd k 0 l) = firstExceed cap l := by
  have h0 : ¬ ((cap : ℚ) < Rat.divInt 0 60) := by
    rw [Rat.zero_divInt]
    intro hlt
    exact absurd (by exact_mod_cast hlt : cap < (0 : ℤ)) (not_lt.mpr hcap)
  intro l
  induction l with
  | nil =>
      simp only [accAdd, firstExceed]
      rw [if_neg h0]
  | cons p rest ih =>
      obtain ⟨k', v'⟩ := p
      unfold accAdd
      by_cases hk : k = k'
      · rw [if_pos hk, add_zero]
      · rw [if_neg hk]
        unfold firstExceed
        by_cases hv : (cap : ℚ) < Rat.divInt v' 60 <;> simp [hv, ih]

/-- C10. A shift with a missing start or end time has duration 0.0, is
never flagged by the rest-time rule, and contributes zero hours to the
hour-summing rules: appending it to a shift set leaves the results of the
daily-hours and weekly-hours checks unchanged (the caps are nonnegative,
as the 8h/40h configuration defaults are). -/
theorem missing_time_shift_spec (cfg : LaborConfig) (shifts : List Shift)
    (uid : Nat) (uname : String) (s : Shift)
    (h : s.start_time = none ∨ s.end_time = none)
    (hd : 0 ≤ cfg.MAX_WORK_HOURS_PER_DAY)
    (hw : 0 ≤ cfg.MAX_WORK_HOURS_PER_WEEK) :
    s.get_duration_hours = 0 ∧ check_rest_time s = none ∧
    check_daily_work_hours cfg (shifts ++ [s]) uid uname =
      check_daily_work_hours cfg shifts uid uname ∧
    check_weekly_work_hours cfg (shifts ++ [s]) uid uname =
      check_weekly_work_hours cfg shifts uid uname := by
  have hdur := durationMinutes_of_missing s h
  have hhours := get_duration_hours_of_missing s h
  refine ⟨hhours, ?_, ?_, ?_⟩
  · unfold check_rest_time
    rw [hhours]
    rw [if_neg (by norm_num), if_neg (by norm_num)]
  · unfold check_daily_work_hours dailyTotals
    rw [List.filter_append]
    cases hu : (s.user_id == uid) with
    | true =>
        rw [show List.filter (fun x => x.user_id == uid) [s] = [s] by
          simp [List.filter, hu]]
        rw [List.foldl_append, List.foldl_cons, List.foldl_nil, hdur,
          firstExceed_accAdd_zero _ hd]
    | false =>
        rw [show List.filter (fun x => x.user_id == uid) [s] = [] by
          simp [List.filter, hu]]
        rw [List.append_nil]
  · unfold check_weekly_work_hours weeklyTotals
    rw [List.filter_append]
    cases hu : (s.user_id == uid) with
    | true =>
        rw [show List.filter (fun x => x.user_id == uid) [s] = [s] by
          simp [List.filter, hu]]
        rw [List.foldl_append, List.foldl_cons, List.foldl_nil, hdur,
          firstExceed_accAdd_zero _ hw]
    | false =>
        rw [show List.filter (fun x => x.user_id == uid) [s] = [] by
          simp [List.filter, hu]]
        rw [List.append_nil]

/-- Normal shift used as context by the C10 witness. -/
def plainShift : Shift :=
  { id := 31, group_id := "gz", user_id := 1, user_name := some "A",
    date := daysFromCivil 2024 3 6, start_time := some ⟨9, 0⟩,
    end_time := some ⟨17, 0⟩, status := ShiftStatus.draft, created_by := 9 }

/-- Shift with a missing start time used by the C10 witness. -/
def missingTimeShift : Shift :=
  { id := 32, group_id := "gz", user_id := 1, user_name := some "A",
    date := daysFromCivil 2024 3 6, start_time := none,
    end_time := some ⟨9, 0⟩, status := ShiftStatus.draft, created_by := 9 }

/-- Witness for C10 at a concrete shift set and the default caps. -/
theorem missing_time_shift_spec_witness :
    missingTimeShift.get_duration_hours = 0 ∧
    check_rest_time missingTimeShift = none ∧
    check_daily_work_hours {} ([plainShift] ++ [missingTimeShift]) 1 "A" =
      check_daily_work_hours {} [plainShift] 1 "A" ∧
    check_weekly_work_hours {} ([plainShift] ++ [missingTimeShift]) 1 "A" =
      check_weekly_work_hours {} [plainShift] 1 "A" :=
  missing_time_shift_spec {} [plainShift] 1 "A" missingTimeShift
    (Or.inl rfl) (by decide) (by decide)

/-- Specification-side walk for C7: the largest streak value ever reached
when walking a date list with the claim's rule — a gap of exactly one day
extends the streak by 1, any other gap (including a repeated date) resets
it to 1 — starting from streak `cur` at `prev`. -/
def streakMaxFrom : Nat → Date → List Date → Nat
  | cur, _, [] => cur
  | cur, prev, d :: ds =>
      if d = prev + 1 then max cur (streakMaxFrom (cur + 1) d ds)
      else max cur (streakMaxFrom 1 d ds)

/-- Specification-side maximal streak of a date list (0 when empty). -/
def specMaxStreak : List Date → Nat
  | [] => 0
  | d :: ds => streakMaxFrom 1 d ds

theorem le_streakMaxFrom (cur : Nat) (prev : Date) (ds : List Date) :
    cur ≤ streakMaxFrom cur prev ds := by
  cases ds with
  | nil => simp [streakMaxFrom]
  | cons d ds =>
      unfold streakMaxFrom
      by_cases h : d = prev + 1
      · rw [if_pos h]; exact Nat.le_max_left _ _
      · rw [if_neg h]; exact Nat.le_max_left _ _

theorem lt_cast_max_iff (a b : Nat) (c : Int) (h : (a : Int) ≤ c) :
    (c < ((max a b : Nat) : Int)) ↔ c < (b : Int) := by
  rcases Nat.le_total a b with hab | hab
  · rw [Nat.max_eq_right hab]
  · rw [Nat.max_eq_left hab]
    constructor <;> intro h2 <;> [omega; skip]
    have : (b : Int) ≤ (a : Int) := by exact_mod_cast hab
    omega

theorem consecLoop_isSome_iff (cap : Int) (uid : Nat) (un : String)
    (hcap : 1 ≤ cap) :
    ∀ (l : List Shift) (cur : Nat) (prev : Date), (cur : Int) ≤ cap →
      ((consecLoop cap uid un cur prev l).isSome = true ↔
        cap < (streakMaxFrom cur prev (l.map (fun s => s.date)) : Int)) := by
  intro l
  induction l with
  | nil =>
      intro cur prev hcur
      simp only [consecLoop, List.map_nil, streakMaxFrom, Option.isSome_none]
      constructor
      · intro h; cases h
      · intro h; omega
  | cons s rest ih =>
      intro cur prev hcur
      unfold consecLoop
      simp only [List.map_cons, streakMaxFrom]
      by_cases h1 : s.date = prev + 1
      · rw [if_pos h1, if_pos h1]
        by_cases h2 : ((cur + 1 : Nat) : Int) > cap
        · rw [if_pos h2]
          simp only [Option.isSome_some, true_iff]
          have h3 : cur + 1 ≤ max cur (streakMaxFrom (cur + 1) s.date
              (rest.map (fun s => s.date))) :=
            le_trans (le_streakMaxFrom _ _ _) (Nat.le_max_right _ _)
          have h4 : ((cur + 1 : Nat) : Int) ≤
              ((max cur (streakMaxFrom (cur + 1) s.date
                (rest.map (fun s => s.date))) : Nat) : Int) := by
            exact_mod_cast h3
          omega
        · rw [if_neg h2]
          rw [ih (cur + 1) s.date (by omega)]
          exact (lt_cast_max_iff _ _ _ hcur).symm
      · rw [if_neg h1, if_neg h1]
        rw [ih 1 s.date (by omega)]
        exact (lt_cast_max_iff _ _ _ hcur).symm

theorem consecLoop_some_moment (cap : Int) (uid : Nat) (un : String)
    (hcap : 1 ≤ cap) :
    ∀ (l : List Shift) (cur : Nat) (prev : Date) (v : LaborLawViolation),
      (cur : Int) ≤ cap → consecLoop cap uid un cur prev l = some v →
      ∃ c, v = consecViolation cap uid un c ∧ (c : Int) = cap + 1 := by
  intro l
  induction l with
  | nil => intro cur prev v _ h; simp [consecLoop] at h
  | cons s rest ih =>
      intro cur prev v hcur h
      unfold consecLoop at h
      by_cases h1 : s.date = prev + 1
      · rw [if_pos h1] at h
        by_cases h2 : ((cur + 1 : Nat) : Int) > cap
        · rw [if_pos h2] at h
          refine ⟨cur + 1, (Option.some_inj.mp h).symm, by omega⟩
        · rw [if_neg h2] at h
          exact ih _ _ _ (by omega) h
      · rw [if_neg h1] at h
        exact ih _ _ _ (by omega) h

/-- C7. The consecutive-days rule sorts the worker's shifts by date
ascending and walks them: a one-day gap extends the streak, any other gap
(including a repeated date) resets it to 1, and a violation is returned
exactly when the walk's maximal streak (`specMaxStreak` of the sorted
date list) exceeds `MAX_CONSECUTIVE_WORK_DAYS`; moreover the violation is
raised the moment the streak exceeds the cap — the reported streak length
is exactly cap + 1.  (The cap is at least 1, as the configured default 6
is; with a cap below 1 the walk never checks the initial streak of 1.) -/
theorem check_consecutive_work_days_spec (cfg : LaborConfig)
    (shifts : List Shift) (uid : Nat) (uname : String)
    (hcap : 1 ≤ cfg.MAX_CONSECUTIVE_WORK_DAYS) :
    ((check_consecutive_work_days cfg shifts uid uname).isSome = true ↔
      cfg.MAX_CONSECUTIVE_WORK_DAYS <
        (specMaxStreak ((sortByDate (shifts.filter
          (fun s => s.user_id == uid))).map (fun s => s.date)) : Int)) ∧
    (∀ v, check_consecutive_work_days cfg shifts uid uname = some v →
      ∃ c, v = consecViolation cfg.MAX_CONSECUTIVE_WORK_DAYS uid uname c ∧
        (c : Int) = cfg.MAX_CONSECUTIVE_WORK_DAYS + 1) := by
  constructor
  · simp only [check_consecutive_work_days]
    cases hs : sortByDate (shifts.filter (fun s => s.user_id == uid)) with
    | nil =>
        simp only [List.map_nil, specMaxStreak, Option.isSome_none]
        constructor
        · intro h; cases h
        · intro h; omega
    | cons first rest =>
        simp only [List.map_cons, specMaxStreak]
        exact consecLoop_isSome_iff _ _ _ hcap rest 1 first.date (by omega)
  · intro v h
    simp only [check_consecutive_work_days] at h
    split at h
    · simp at h
    · exact consecLoop_some_moment _ _ _ hcap _ _ _ _ (by omega) h

/-- Shifts used by the C7 witness: worker 1 works 1h on each of 7
consecutive calendar days starting Monday 2024-03-04. -/
def consecWitnessShifts : List Shift :=
  (List.range 7).map (fun k =>
    { id := 40 + k, group_id := "gc", user_id := 1, user_name := some "A",
      date := daysFromCivil 2024 3 4 + k, start_time := some ⟨9, 0⟩,
      end_time := some ⟨10, 0⟩, status := ShiftStatus.draft,
      created_by := 9 })

/-- Witness for C7: 7 consecutive working days are flagged with the
default cap of 6. -/
theorem check_consecutive_work_days_spec_witness :
    (check_consecutive_work_days {} consecWitnessShifts 1 "A").isSome = true :=
  (check_consecutive_work_days_spec {} consecWitnessShifts 1 "A"
    (by decide)).1.mpr (by decide)

/-- A violation list is "grouped by rule" when no violation kind
reappears after a different kind intervened: collapsing adjacent equal
kinds leaves no duplicates. -/
def typesGrouped (l : List LaborLawViolation) : Prop :=
  ((l.map (fun v => v.violation_type)).destutter (· ≠ ·)).Nodup

instance (l : List LaborLawViolation) : Decidable (typesGrouped l) := by
  unfold typesGrouped
  infer_instance

/-- Shifts of one worker for the C5 counterexample: a 9h day (daily-hours
violation and rest warning) followed by six 1h days, 7 consecutive
calendar days in total (consecutive-days violation), only 15h in the week
(no weekly violation). -/
def notGroupedUserShifts (uid : Nat) : List Shift :=
  (List.range 7).map (fun k =>
    { id := uid * 100 + k, group_id := "gx", user_id := uid,
      user_name := some "W", date := daysFromCivil 2024 3 4 + k,
      start_time := some ⟨9, 0⟩,
      end_time := some (if k = 0 then ⟨18, 0⟩ else ⟨10, 0⟩),
      status := ShiftStatus.draft, created_by := 9 })

/-- Two workers with the pattern above: each worker's block contributes a
daily-hours violation followed by a consecutive-days violation, so the
kinds interleave as daily, consecutive, daily, consecutive, … . -/
def notGroupedShifts : List Shift :=
  notGroupedUserShifts 1 ++ notGroupedUserShifts 2

/-- C5 counterexample: the violation list returned by
`check_all_violations` is not grouped by rule — with two workers who each
trigger the daily-hours and the consecutive-days rules, a daily-hours
violation reappears after a consecutive-days violation (the list is
grouped by worker instead; whichever order the two workers are
enumerated in, the kind pattern daily, consecutive, daily, consecutive
is not grouped by rule). -/
theorem check_all_violations_not_grouped_by_rule :
    ¬ typesGrouped (check_all_violations {} notGroupedShifts) := by
  decide

/-- C5 (amended). `check_all_violations` runs all four rules — the three
aggregated rules once per distinct worker, the rest-time rule over every
shift — and returns the concatenated list grouped by *worker*, not by
rule: for each distinct worker in set-iteration order, that worker's
daily-hours, weekly-hours and consecutive-days results in that fixed
order, followed by the rest-time violations in shift order. -/
theorem check_all_violations_grouped_by_worker (cfg : LaborConfig)
    (shifts : List Shift) :
    check_all_violations cfg shifts =
      (firstOccurrences (shifts.map (fun s => s.user_id))).flatMap
        (userBlock cfg shifts) ++
        shifts.filterMap check_rest_time :=
  check_all_violations_eq cfg shifts

theorem check_rest_time_type (s : Shift) (v : LaborLawViolation)
    (h : check_rest_time s = some v) :
    v.violation_type = "rest_time_required" := by
  simp only [check_rest_time] at h
  split_ifs at h <;> exact (Option.some_inj.mp h) ▸ rfl

theorem userBlock_user_id (cfg : LaborConfig) (shifts : List Shift)
    (uid : Nat) (v : LaborLawViolation) (h : v ∈ userBlock cfg shifts uid) :
    v.user_id = uid := by
  unfold userBlock at h
  split at h
  · simp at h
  · simp only [List.mem_append, Option.mem_toList, Option.mem_def] at h
    rcases h with (h | h) | h
    · obtain ⟨p, rfl⟩ := check_daily_some_form _ _ _ _ _ h
      rfl
    · obtain ⟨p, rfl⟩ := check_weekly_some_form _ _ _ _ _ h
      rfl
    · obtain ⟨c, rfl⟩ := check_consecutive_some_form _ _ _ _ _ h
      rfl

theorem countP_toList_le_one {V : Type} (o : Option V) (p : V → Bool) :
    (o.toList.countP p) ≤ 1 := by
  cases o with
  | none => simp [List.countP, List.countP.go]
  | some a =>
      simp only [Option.toList, List.countP_cons, List.countP_nil]
      split <;> omega

theorem countP_toList_eq_zero {V : Type} (o : Option V) (p : V → Bool)
    (h : ∀ v, o = some v → p v = false) : (o.toList.countP p) = 0 := by
  cases o with
  | none => simp [List.countP, List.countP.go]
  | some a =>
      simp only [Option.toList, List.countP_cons, List.countP_nil]
      rw [h a rfl]
      simp

theorem userBlock_countP_le_one (cfg : LaborConfig) (shifts : List Shift)
    (uid : Nat) (t : String)
    (ht : t = "daily_hours_exceeded" ∨ t = "weekly_hours_exceeded" ∨
      t = "consecutive_days_exceeded") :
    ((userBlock cfg shifts uid).countP
      (fun v => v.user_id == uid && v.violation_type == t)) ≤ 1 := by
  unfold userBlock
  split
  · simp [List.countP, List.countP.go]
  · rename_i first tail heq
    rw [List.countP_append, List.countP_append]
    have hd := countP_toList_le_one (check_daily_work_hours cfg shifts uid
      (first.user_name.getD "不明"))
      (fun v => v.user_id == uid && v.violation_type == t)
    have hw := countP_toList_le_one (check_weekly_work_hours cfg shifts uid
      (first.user_name.getD "不明"))
      (fun v => v.user_id == uid && v.violation_type == t)
    have hc := countP_toList_le_one (check_consecutive_work_days cfg shifts uid
      (first.user_name.getD "不明"))
      (fun v => v.user_id == uid && v.violation_type == t)
    rcases ht with rfl | rfl | rfl
    · have hw0 := countP_toList_eq_zero (check_weekly_work_hours cfg shifts uid
        (first.user_name.getD "不明"))
        (fun v => v.user_id == uid &&
          v.violation_type == "daily_hours_exceeded")
        (by
          intro v hv
          obtain ⟨p, rfl⟩ := check_weekly_some_form _ _ _ _ _ hv
          simp [weeklyViolation])
      have hc0 := countP_toList_eq_zero (check_consecutive_work_days cfg
        shifts uid (first.user_name.getD "不明"))
        (fun v => v.user_id == uid &&
          v.violation_type == "daily_hours_exceeded")
        (by
          intro v hv
          obtain ⟨c, rfl⟩ := check_consecutive_some_form _ _ _ _ _ hv
          simp [consecViolation])
      omega
    · have hd0 := countP_toList_eq_zero (check_daily_work_hours cfg shifts uid
        (first.user_name.getD "不明"))
        (fun v => v.user_id == uid &&
          v.violation_type == "weekly_hours_exceeded")
        (by
          intro v hv
          obtain ⟨p, rfl⟩ := check_daily_some_form _ _ _ _ _ hv
          simp [dailyViolation])
      have hc0 := countP_toList_eq_zero (check_consecutive_work_days cfg
        shifts uid (first.user_name.getD "不明"))
        (fun v => v.user_id == uid &&
          v.violation_type == "weekly_hours_exceeded")
        (by
          intro v hv
          obtain ⟨c, rfl⟩ := check_consecutive_some_form _ _ _ _ _ hv
          simp [consecViolation])
      omega
    · have hd0 := countP_toList_eq_zero (check_daily_work_hours cfg shifts uid
        (first.user_name.getD "不明"))
        (fun v => v.user_id == uid &&
          v.violation_type == "consecutive_days_exceeded")
        (by
          intro v hv
          obtain ⟨p, rfl⟩ := check_daily_some_form _ _ _ _ _ hv
          simp [dailyViolation])
      have hw0 := countP_toList_eq_zero (check_weekly_work_hours cfg shifts
        uid (first.user_name.getD "不明"))
        (fun v => v.user_id == uid &&
          v.violation_type == "consecutive_days_exceeded")
        (by
          intro v hv
          obtain ⟨p, rfl⟩ := check_weekly_some_form _ _ _ _ _ hv
          simp [weeklyViolation])
      omega

theorem flatMap_userBlock_countP_le_one (cfg : LaborConfig)
    (shifts : List Shift) (uid : Nat) (t : String)
    (ht : t = "daily_hours_exceeded" ∨ t = "weekly_hours_exceeded" ∨
      t = "consecutive_days_exceeded") :
    ∀ ids : List Nat, ids.Nodup →
      ((ids.flatMap (userBlock cfg shifts)).countP
        (fun v => v.user_id == uid && v.violation_type == t)) ≤ 1 := by
  intro ids
  induction ids with
  | nil => intro _; simp [List.countP, List.countP.go]
  | cons i is ih =>
      intro hnodup
      obtain ⟨hi, his⟩ := List.nodup_cons.mp hnodup
      rw [List.flatMap_cons, List.countP_append]
      by_cases hiu : i = uid
      · subst hiu
        have h2 : ((is.flatMap (userBlock cfg shifts)).countP
            (fun v => v.user_id == i && v.violation_type == t)) = 0 := by
          rw [List.countP_eq_zero]
          intro v hv
          obtain ⟨j, hj, hvj⟩ := List.mem_flatMap.mp hv
          have hvu := userBlock_user_id cfg shifts j v hvj
          have hji : j ≠ i := fun h => hi (h ▸ hj)
          simp [hvu, hji]
        have h1 := userBlock_countP_le_one cfg shifts i t ht
        omega
      · have h1 : ((userBlock cfg shifts i).countP
            (fun v => v.user_id == uid && v.violation_type == t)) = 0 := by
          rw [List.countP_eq_zero]
          intro v hv
          have hvu := userBlock_user_id cfg shifts i v hv
          simp [hvu, hiu]
        rw [h1]
        simpa using ih his

theorem restPart_countP_zero (shifts : List Shift) (uid : Nat) (t : String)
    (ht : t = "daily_hours_exceeded" ∨ t = "weekly_hours_exceeded" ∨
      t = "consecutive_days_exceeded") :
    ((shifts.filterMap check_rest_time).countP
      (fun v => v.user_id == uid && v.violation_type == t)) = 0 := by
  rw [List.countP_eq_zero]
  intro v hv
  obtain ⟨s, _, hsv⟩ := List.mem_filterMap.mp hv
  have := check_rest_time_type s v hsv
  rcases ht with rfl | rfl | rfl <;> simp [this]

/-- C9. Each aggregated compliance rule reports at most one violation
per worker per call, and only the first offending entry in encounter
order: the daily and weekly checks equal `List.find?` of the first
offending date/week entry of the worker's total map (so later offending
dates or weeks are never reported), and in the combined
`check_all_violations` output each worker carries at most one violation
of each aggregated kind. -/
theorem aggregated_rules_first_offence_only (cfg : LaborConfig)
    (shifts : List Shift) (uid : Nat) (uname : String) (t : String)
    (ht : t = "daily_hours_exceeded" ∨ t = "weekly_hours_exceeded" ∨
      t = "consecutive_days_exceeded") :
    check_daily_work_hours cfg shifts uid uname =
      ((dailyTotals shifts uid).find? (fun p =>
        decide ((cfg.MAX_WORK_HOURS_PER_DAY : ℚ) < Rat.divInt p.2 60))).map
        (dailyViolation cfg uid uname) ∧
    check_weekly_work_hours cfg shifts uid uname =
      ((weeklyTotals shifts uid).find? (fun p =>
        decide ((cfg.MAX_WORK_HOURS_PER_WEEK : ℚ) < Rat.divInt p.2 60))).map
        (weeklyViolation cfg uid uname) ∧
    ((check_all_violations cfg shifts).countP
      (fun v => v.user_id == uid && v.violation_type == t)) ≤ 1 := by
  refine ⟨?_, ?_, ?_⟩
  · unfold check_daily_work_hours
    rw [firstExceed_eq_find?]
  · unfold check_weekly_work_hours
    rw [firstExceed_eq_find?]
  · rw [check_all_violations_eq, List.countP_append]
    have h1 := flatMap_userBlock_countP_le_one cfg shifts uid t ht
      (firstOccurrences (shifts.map (fun s => s.user_id)))
      (firstOccurrences_nodup _)
    have h2 := restPart_countP_zero shifts uid t ht
    omega

/-- Shifts used by the C9 witness: worker 1 exceeds the daily cap on two
different dates; only the first is reported and the combined report holds
a single daily-hours violation for the worker. -/
def firstOffenceShifts : List Shift :=
  [{ id := 51, group_id := "gf", user_id := 1, user_name := some "A",
     date := daysFromCivil 2024 3 6, start_time := some ⟨9, 0⟩,
     end_time := some ⟨19, 0⟩, status := ShiftStatus.draft, created_by := 9 },
   { id := 52, group_id := "gf", user_id := 1, user_name := some "A",
     date := daysFromCivil 2024 3 8, start_time := some ⟨9, 0⟩,
     end_time := some ⟨19, 0⟩, status := ShiftStatus.draft, created_by := 9 }]

/-- Witness for C9 at a concrete shift set, default caps, and the
daily-hours kind. -/
theorem aggregated_rules_first_offence_only_witness :
    check_daily_work_hours {} firstOffenceShifts 1 "A" =
      ((dailyTotals firstOffenceShifts 1).find? (fun p =>
        decide (((LaborConfig.MAX_WORK_HOURS_PER_DAY {}) : ℚ) <
          Rat.divInt p.2 60))).map (dailyViolation {} 1 "A") ∧
    check_weekly_work_hours {} firstOffenceShifts 1 "A" =
      ((weeklyTotals firstOffenceShifts 1).find? (fun p =>
        decide (((LaborConfig.MAX_WORK_HOURS_PER_WEEK {}) : ℚ) <
          Rat.divInt p.2 60))).map (weeklyViolation {} 1 "A") ∧
    ((check_all_violations {} firstOffenceShifts).countP
      (fun v => v.user_id == 1 &&
        v.violation_type == "daily_hours_exceeded")) ≤ 1 :=
  aggregated_rules_first_offence_only {} firstOffenceShifts 1 "A"
    "daily_hours_exceeded" (Or.inl rfl)

/-- The `new_data` dict passed to `adjust_shift`: `some x` means the key
is present with value `x`; a present time value may itself be Python
`None`, hence the nested option on the time fields. -/
structure NewData where
  user_id : Option Nat := none
  start_time : Option (Option Time) := none
  end_time : Option (Option Time) := none
deriving DecidableEq, Repr

/-- Row of the `shift_revisions` table (`ShiftRevision` model in
`models/shift_revision.py`); `old_value`/`new_value` hold the `str()`
rendering of the value, or `none` for Python `None`. -/
structure ShiftRevision where
  shift_id : Nat
  field_name : String
  old_value : Option String
  new_value : Option String
  changed_by : Nat
  change_reason : Option String
deriving DecidableEq, Repr

/-- Two-digit rendering of an hour or minute field. -/
def pad2 (n : Nat) : String :=
  (if n < 10 then "0" else "") ++ toString n

/-- Python `str()` of a `datetime.time` with zero seconds
(`HH:MM:SS`). -/
def timeStr (t : Time) : String :=
  pad2 t.hour ++ ":" ++ pad2 t.minute ++ ":00"

/-- `ShiftRevision.create_revision`: builds a ledger row; callers pass
the already-stringified values (`str(x)` for a present value, `none` for
Python `None`), matching the `str(old_value) if old_value is not None
else None` projection of the source. -/
def ShiftRevision.create_revision (shift_id : Nat) (field_name : String)
    (old_value new_value : Option String) (changed_by : Nat)
    (reason : Option String) : ShiftRevision :=
  { shift_id := shift_id, field_name := field_name, old_value := old_value,
    new_value := new_value, changed_by := changed_by,
    change_reason := reason }

/-- Replacement of the first row matched by `p` — the in-place mutation
of the single row that `session.query(...).first()` returned. -/
def replaceFirst (p : Shift → Bool) (new : Shift) : List Shift → List Shift
  | [] => []
  | s :: rest => if p s then new :: rest else s :: replaceFirst p new rest

/-- Revision rows appended by a successful `adjust_shift`: one per
supplied field among `user_id`, `start_time`, `end_time` whose value
differs from the current row, in that order. -/
def adjustRevisions (new_data : NewData) (shift_id : Nat) (admin_id : Nat)
    (reason : Option String) (shift : Shift) : List ShiftRevision :=
  (match new_data.user_id with
    | some u =>
        if u ≠ shift.user_id then
          [ShiftRevision.create_revision shift_id "user_id"
            (some (toString shift.user_id)) (some (toString u))
            admin_id reason]
        else []
    | none => []) ++
  (match new_data.start_time with
    | some v =>
        if v ≠ shift.start_time then
          [ShiftRevision.create_revision shift_id "start_time"
            (shift.start_time.map timeStr) (v.map timeStr)
            admin_id reason]
        else []
    | none => []) ++
  (match new_data.end_time with
    | some v =>
        if v ≠ shift.end_time then
          [ShiftRevision.create_revision shift_id "end_time"
            (shift.end_time.map timeStr) (v.map timeStr)
            admin_id reason]
        else []
    | none => [])

/-- Row state written by a successful `adjust_shift`: supplied values
applied, adjuster and time stamped, status `adjusted`, version + 1. -/
def adjustedRow (new_data : NewData) (admin_id : Nat) (now : Nat)
    (shift : Shift) : Shift :=
  { shift with
    user_id := new_data.user_id.getD shift.user_id
    start_time := new_data.start_time.getD shift.start_time
    end_time := new_data.end_time.getD shift.end_time
    adjusted_by := some admin_id
    adjusted_at := some now
    status := ShiftStatus.adjusted
    version := shift.version + 1 }

/-- `ShiftApprovalService.adjust_shift` over an explicit shift table:
find the row by id; fail (no exception, no mutation) when it is missing
or not editable; otherwise record one revision per supplied field among
`user_id`, `start_time`, `end_time` whose value differs from the current
one, apply the new values, stamp `adjusted_by`/`adjusted_at`, set status
`adjusted` and increment `version` by one.  The source compares and
assigns field by field in this order; as the three fields are distinct,
comparing all three against the original row is equivalent. -/
def adjust_shift (db : List Shift) (shift_id : Nat) (new_data : NewData)
    (admin_id : Nat) (reason : Option String) (now : Nat) :
    Bool × List Shift × List ShiftRevision :=
  match db.find? (fun s => s.id == shift_id) with
  | none => (false, db, [])
  | some shift =>
      if shift.can_edit then
        (true, replaceFirst (fun s => s.id == shift_id)
          (adjustedRow new_data admin_id now shift) db,
          adjustRevisions new_data shift_id admin_id reason shift)
      else (false, db, [])

/-- `ShiftApprovalService.reject_shifts` over an explicit shift table:
every row of the group whose status is in the query's filter set —
exactly `{adjusted, pending, approved}` in the source; note that
`ShiftStatus.ADJUSTING` is absent from this filter even though
`Shift.can_reject` includes it — is reset to draft with
rejecter/time/reason recorded; all other rows are untouched. -/
def reject_shifts (db : List Shift) (group_id : String) (rejecter_id : Nat)
    (reason : String) (now : Nat) : Bool × List Shift :=
  (true, db.map (fun s =>
    if s.group_id = group_id ∧ (s.status = ShiftStatus.adjusted ∨
        s.status = ShiftStatus.pending ∨ s.status = ShiftStatus.approved) then
      { s with
        status := ShiftStatus.draft
        rejected_by := some rejecter_id
        rejected_at := some now
        rejection_reason := some reason }
    else s))

/-- Specification-side predicate for C2: the `user_id` key is supplied
and differs from the row's current value. -/
def userChanged (nd : NewData) (s : Shift) : Bool :=
  match nd.user_id with
  | some u => decide (u ≠ s.user_id)
  | none => false

/-- Specification-side predicate for C2: the `start_time` key is
supplied and differs from the row's current value. -/
def startChanged (nd : NewData) (s : Shift) : Bool :=
  match nd.start_time with
  | some v => decide (v ≠ s.start_time)
  | none => false

/-- Specification-side predicate for C2: the `end_time` key is supplied
and differs from the row's current value. -/
def endChanged (nd : NewData) (s : Shift) : Bool :=
  match nd.end_time with
  | some v => decide (v ≠ s.end_time)
  | none => false

/-- Number of tracked fields whose supplied value differs from the
row. -/
def changedCount (nd : NewData) (s : Shift) : Nat :=
  (if userChanged nd s then 1 else 0) + (if startChanged nd s then 1 else 0)
    + (if endChanged nd s then 1 else 0)

theorem adjustRevisions_length (nd : NewData) (sid admin : Nat)
    (reason : Option String) (s : Shift) :
    (adjustRevisions nd sid admin reason s).length = changedCount nd s := by
  obtain ⟨nu, nst, net⟩ := nd
  cases nu <;> cases nst <;> cases net <;>
    simp only [adjustRevisions, changedCount, userChanged, startChanged,
      endChanged, List.length_append] <;>
    split_ifs <;> simp_all

theorem adjustRevisions_countP_user (nd : NewData) (sid admin : Nat)
    (reason : Option String) (s : Shift) :
    ((adjustRevisions nd sid admin reason s).countP
      (fun r => r.field_name == "user_id")) =
      if userChanged nd s then 1 else 0 := by
  obtain ⟨nu, nst, net⟩ := nd
  cases nu <;> cases nst <;> cases net <;>
    simp only [adjustRevisions, userChanged, startChanged, endChanged,
      List.countP_append, ShiftRevision.create_revision] <;>
    split_ifs <;>
    simp_all [List.countP_cons, List.countP, List.countP.go]

theorem adjustRevisions_countP_start (nd : NewData) (sid admin : Nat)
    (reason : Option String) (s : Shift) :
    ((adjustRevisions nd sid admin reason s).countP
      (fun r => r.field_name == "start_time")) =
      if startChanged nd s then 1 else 0 := by
  obtain ⟨nu, nst, net⟩ := nd
  cases nu <;> cases nst <;> cases net <;>
    simp only [adjustRevisions, userChanged, startChanged, endChanged,
      List.countP_append, ShiftRevision.create_revision] <;>
    split_ifs <;>
    simp_all [List.countP_cons, List.countP, List.countP.go]

theorem adjustRevisions_countP_end (nd : NewData) (sid admin : Nat)
    (reason : Option String) (s : Shift) :
    ((adjustRevisions nd sid admin reason s).countP
      (fun r => r.field_name == "end_time")) =
      if endChanged nd s then 1 else 0 := by
  obtain ⟨nu, nst, net⟩ := nd
  cases nu <;> cases nst <;> cases net <;>
    simp only [adjustRevisions, userChanged, startChanged, endChanged,
      List.countP_append, ShiftRevision.create_revision] <;>
    split_ifs <;>
    simp_all [List.countP_cons, List.countP, List.countP.go]

theorem find?_replaceFirst (p : Shift → Bool) (new : Shift)
    (hnew : p new = true) :
    ∀ (db : List Shift) (s : Shift), db.find? p = some s →
      (replaceFirst p new db).find? p = some new := by
  intro db
  induction db with
  | nil => intro s h; simp [List.find?] at h
  | cons x xs ih =>
      intro s h
      unfold replaceFirst
      by_cases hx : p x = true
      · rw [if_pos hx]
        simp [List.find?, hnew]
      · rw [if_neg hx]
        rw [List.find?_cons_of_neg _ (by simpa using hx)] at h ⊢
        exact ih s h

/-- C2. A successful `adjust_shift` on an editable row reports success,
bumps the row's `version` by exactly one, and appends exactly one
revision row per tracked field (`user_id`, `start_time`, `end_time`)
whose supplied value differs from the row — in particular, when no
tracked field differs, zero revision rows are appended while `version`
is still incremented exactly once. -/
theorem adjust_shift_spec (db : List Shift) (sid : Nat) (nd : NewData)
    (admin : Nat) (reason : Option String) (now : Nat) (s : Shift)
    (hfind : db.find? (fun x => x.id == sid) = some s)
    (hedit : s.can_edit = true) :
    (adjust_shift db sid nd admin reason now).1 = true ∧
    (∃ s', ((adjust_shift db sid nd admin reason now).2.1).find?
        (fun x => x.id == sid) = some s' ∧
      s'.version = s.version + 1) ∧
    ((adjust_shift db sid nd admin reason now).2.2).length =
      changedCount nd s ∧
    ((adjust_shift db sid nd admin reason now).2.2).countP
      (fun r => r.field_name == "user_id") =
      (if userChanged nd s then 1 else 0) ∧
    ((adjust_shift db sid nd admin reason now).2.2).countP
      (fun r => r.field_name == "start_time") =
      (if startChanged nd s then 1 else 0) ∧
    ((adjust_shift db sid nd admin reason now).2.2).countP
      (fun r => r.field_name == "end_time") =
      (if endChanged nd s then 1 else 0) ∧
    (changedCount nd s = 0 →
      (adjust_shift db sid nd admin reason now).2.2 = []) := by
  have hp := List.find?_some hfind
  have heq : adjust_shift db sid nd admin reason now =
      (true, replaceFirst (fun x => x.id == sid)
        (adjustedRow nd admin now s) db,
        adjustRevisions nd sid admin reason s) := by
    unfold adjust_shift
    rw [hfind]
    simp only [hedit, if_true]
  rw [heq]
  refine ⟨rfl, ⟨adjustedRow nd admin now s, ?_, rfl⟩, ?_, ?_, ?_, ?_, ?_⟩
  · exact find?_replaceFirst _ _ (by simpa [adjustedRow] using hp) db s hfind
  · exact adjustRevisions_length nd sid admin reason s
  · exact adjustRevisions_countP_user nd sid admin reason s
  · exact adjustRevisions_countP_start nd sid admin reason s
  · exact adjustRevisions_countP_end nd sid admin reason s
  · intro h0
    have := adjustRevisions_length nd sid admin reason s
    rw [h0] at this
    exact List.eq_nil_of_length_eq_zero this

/-- Draft row used by the C2 witness. -/
def editShift : Shift :=
  { id := 61, group_id := "ge", user_id := 1, user_name := some "A",
    date := daysFromCivil 2024 3 6, start_time := some ⟨9, 0⟩,
    end_time := some ⟨17, 0⟩, status := ShiftStatus.draft, created_by := 9 }

/-- New data for the C2 witness: only the end time is supplied and it
differs, so exactly one revision row is expected. -/
def editNewData : NewData :=
  { end_time := some (some ⟨18, 0⟩) }

/-- Witness for C2: adjusting the draft row above succeeds and writes a
ledger delta whose length is the changed-field count (here 1). -/
theorem adjust_shift_spec_witness :
    (adjust_shift [editShift] 61 editNewData 9 (some "fix") 5).1 = true ∧
    (adjust_shift [editShift] 61 editNewData 9 (some "fix") 5).2.2.length =
      changedCount editNewData editShift := by
  have h := adjust_shift_spec [editShift] 61 editNewData 9 (some "fix") 5
    editShift (by decide) (by decide)
  exact ⟨h.1, h.2.2.1⟩

/-- C8. `adjust_shift` against a nonexistent id, or a row whose status
is outside the editable set, reports failure and leaves the shift table
and the revision ledger unchanged (the embedding is a total function, so
no exception is possible). -/
theorem adjust_shift_invalid_noop (db : List Shift) (sid : Nat)
    (nd : NewData) (admin : Nat) (reason : Option String) (now : Nat)
    (h : db.find? (fun x => x.id == sid) = none ∨
      ∃ s, db.find? (fun x => x.id == sid) = some s ∧ s.can_edit = false) :
    adjust_shift db sid nd admin reason now = (false, db, []) := by
  unfold adjust_shift
  rcases h with h | ⟨s, h, hedit⟩ <;> rw [h]
  simp [hedit]

/-- Published row used by the C8 witness. -/
def publishedShift : Shift :=
  { id := 62, group_id := "gp", user_id := 1, user_name := some "A",
    date := daysFromCivil 2024 3 6, start_time := some ⟨9, 0⟩,
    end_time := some ⟨17, 0⟩, status := ShiftStatus.published,
    created_by := 9 }

/-- Witness for C8: adjusting a published row fails and changes
nothing. -/
theorem adjust_shift_invalid_noop_witness :
    adjust_shift [publishedShift] 62 editNewData 9 none 5 =
      (false, [publishedShift], []) :=
  adjust_shift_invalid_noop [publishedShift] 62 editNewData 9 none 5
    (Or.inr ⟨publishedShift, by decide, by decide⟩)

/-- Shift in status `adjusting` for the C1 failing input. -/
def adjustingShift : Shift :=
  { id := 71, group_id := "gr", user_id := 1, user_name := some "A",
    date := daysFromCivil 2024 3 4, start_time := some ⟨9, 0⟩,
    end_time := some ⟨17, 0⟩, status := ShiftStatus.adjusting,
    created_by := 9 }

/-- Shift in status `adjusted` of the same group, showing the reset the
source does perform. -/
def adjustedGroupShift : Shift :=
  { id := 72, group_id := "gr", user_id := 2, user_name := some "B",
    date := daysFromCivil 2024 3 4, start_time := some ⟨9, 0⟩,
    end_time := some ⟨17, 0⟩, status := ShiftStatus.adjusted,
    created_by := 9 }

/-- C1 (failing input). `Shift.can_reject` declares a shift in status
`adjusting` rejectable, yet `reject_shifts` — whose query filters on
exactly `{adjusted, pending, approved}` — leaves such a shift entirely
untouched: no reset to draft, no rejecter, timestamp or reason recorded.
A shift of the same group in status `adjusted` is reset as the claim
describes, isolating the omission of `adjusting` as the divergence. -/
theorem reject_shifts_skips_adjusting :
    Shift.can_reject adjustingShift = true ∧
    (reject_shifts [adjustingShift, adjustedGroupShift] "gr" 7 "bad" 5).2 =
      [adjustingShift,
       { adjustedGroupShift with
         status := ShiftStatus.draft
         rejected_by := some 7
         rejected_at := some 5
         rejection_reason := some "bad" }] := by
  constructor
  · decide
  · decide

/-- Row of the `users` table (`User` model in `models/user.py`) — only
the fields the optimizer reads. -/
structure User where
  id : Nat
  name : String := ""
  is_active : Bool := true
deriving DecidableEq, Repr

/-- Row of the `shift_requests` table (`ShiftRequest` model in
`models/shift_request.py`) — the fields the optimizer reads. -/
structure ShiftRequest where
  id : Nat
  user_id : Nat
  date : Date
  start_time : Option Time
  end_time : Option Time
  priority : Nat := 1
deriving DecidableEq, Repr

/-- `ShiftOptimizer._generate_date_range`: the dates from `start_date`
to `end_date` inclusive (empty when the interval is). -/
def dateRange (start_date end_date : Date) : List Date :=
  if start_date ≤ end_date then
    (List.range (end_date - start_date + 1)).map (fun k => start_date + k)
  else []

/-- Keys of the decision variables `shift_vars[user.id][date][request.id]`
of `ShiftOptimizer.create_shifts`, in loop construction order: active
users, then dates of the range, then that user's requests on that date.
Nested-dict insertion order equals this loop order provided user ids and
request ids are distinct (they are primary keys), which the claim
theorem assumes. -/
def shiftVarKeys (start_date end_date : Date)
    (shift_requests : List ShiftRequest) (users : List User) :
    List (Nat × Date × Nat) :=
  (users.filter (fun u => u.is_active)).flatMap (fun u =>
    (dateRange start_date end_date).flatMap (fun d =>
      ((shift_requests.filter (fun r => r.user_id == u.id)).filter
        (fun r => r.date == d)).map (fun r => (u.id, d, r.id))))

/-- The draft `Shift` row the optimizer constructs for an adopted
request: status draft, caller-supplied group id and creator, date from
the loop, start/end copied from the request.  The row id is assigned by
the database on insert and `version` takes the column default 1. -/
def draftShiftFromRequest (group_id : String) (user_id : Nat) (date : Date)
    (r : ShiftRequest) (created_by : Nat) (now : Nat) : Shift :=
  { id := 0, group_id := group_id, user_id := user_id, date := date,
    start_time := r.start_time, end_time := r.end_time,
    status := ShiftStatus.draft, created_by := created_by,
    created_at := now }

/-- Result collection step for one decision variable: when the solver
set it to 1, look the originating request up by id (`next(r for r in
shift_requests if r.id == request_id)`) and emit the draft shift; the
`none` branch is unreachable for keys built by `shiftVarKeys` (there
Python's `next` would raise `StopIteration`). -/
def varShift (shift_requests : List ShiftRequest) (group_id : String)
    (created_by : Nat) (now : Nat) (value : Nat × Date × Nat → Bool)
    (k : Nat × Date × Nat) : List Shift :=
  if value k then
    match shift_requests.find? (fun r => r.id == k.2.2) with
    | some request =>
        [draftShiftFromRequest group_id k.1 k.2.1 request created_by now]
    | none => []
  else []

/-- `ShiftOptimizer.create_shifts`, with the external pulp solve
abstracted by its observable outcome: `optimal` stands for
`prob.status == LpStatusOptimal` and `value k` for
`pulp.value(var) == 1` of the variable keyed `k`.  When the solve is
optimal, the loop over the variable dict collects one draft shift per
selected variable; otherwise the result is empty. -/
def create_shifts (start_date end_date : Date)
    (shift_requests : List ShiftRequest) (users : List User)
    (group_id : String) (created_by : Nat) (now : Nat)
    (optimal : Bool) (value : Nat × Date × Nat → Bool) : List Shift :=
  if optimal then
    (shiftVarKeys start_date end_date shift_requests users).flatMap
      (varShift shift_requests group_id created_by now value)
  else []

theorem mem_shiftVarKeys (start_date end_date : Date)
    (shift_requests : List ShiftRequest) (users : List User)
    (k : Nat × Date × Nat)
    (hk : k ∈ shiftVarKeys start_date end_date shift_requests users) :
    ∃ r ∈ shift_requests, r.id = k.2.2 ∧ r.user_id = k.1 ∧
      r.date = k.2.1 := by
  unfold shiftVarKeys at hk
  obtain ⟨u, hu, hk⟩ := List.mem_flatMap.mp hk
  obtain ⟨d, hd, hk⟩ := List.mem_flatMap.mp hk
  obtain ⟨r, hr, hrk⟩ := List.mem_map.mp hk
  obtain ⟨hr2, hrd⟩ := List.mem_filter.mp hr
  obtain ⟨hr3, hru⟩ := List.mem_filter.mp hr2
  refine ⟨r, hr3, ?_, ?_, ?_⟩
  · rw [← hrk]
  · rw [← hrk]
    simpa using hru
  · rw [← hrk]
    simpa using hrd

theorem find?_of_nodup_ids (l : List ShiftRequest)
    (hl : (l.map (fun r => r.id)).Nodup) (r : ShiftRequest) (hr : r ∈ l) :
    l.find? (fun x => x.id == r.id) = some r := by
  induction l with
  | nil => cases hr
  | cons x xs ih =>
      rw [List.map_cons, List.nodup_cons] at hl
      rcases List.mem_cons.mp hr with rfl | hr'
      · rw [List.find?_cons_of_pos _ (by simp)]
      · have hne : (x.id == r.id) = false := by
          rw [beq_eq_false_iff_ne]
          intro hx
          exact hl.1 (hx ▸ List.mem_map_of_mem (fun r => r.id) hr')
        rw [List.find?_cons_of_neg _ (by simp [hne])]
        exact ih hl.2 hr'

theorem flatMap_varShift_length (shift_requests : List ShiftRequest)
    (group_id : String) (created_by : Nat) (now : Nat)
    (value : Nat × Date × Nat → Bool) :
    ∀ keys : List (Nat × Date × Nat),
      (∀ k ∈ keys, ∃ r ∈ shift_requests, r.id = k.2.2) →
      (keys.flatMap
        (varShift shift_requests group_id created_by now value)).length =
        (keys.filter value).length := by
  intro keys
  induction keys with
  | nil => intro _; rfl
  | cons k ks ih =>
      intro hall
      obtain ⟨r, hr, hid⟩ := hall k (List.mem_cons_self _ _)
      have hfind : (shift_requests.find? (fun x => x.id == k.2.2)).isSome =
          true := by
        rw [List.find?_isSome]
        exact ⟨r, hr, by simp [hid]⟩
      obtain ⟨r', hr'⟩ := Option.isSome_iff_exists.mp hfind
      rw [List.flatMap_cons, List.length_append,
        ih (fun k' hk' => hall k' (List.mem_cons_of_mem _ hk')),
        List.filter_cons]
      unfold varShift
      cases hv : value k with
      | true =>
          rw [if_pos rfl, hr']
          simp [hv]
          omega
      | false => simp [hv]

/-- C3. If the model is solved to optimality, `create_shifts` returns
exactly one shift per selected decision variable (the result length
equals the number of selected variable keys), each with status draft,
the supplied group id and creator, and user/date/start/end taken from
the originating availability request (request ids are primary keys,
hence pairwise distinct); when the solve is not optimal, or no variable
was selected, the result is the empty list. -/
theorem create_shifts_spec (start_date end_date : Date)
    (shift_requests : List ShiftRequest) (users : List User)
    (group_id : String) (created_by : Nat) (now : Nat)
    (optimal : Bool) (value : Nat × Date × Nat → Bool)
    (hnodup : (shift_requests.map (fun r => r.id)).Nodup) :
    (optimal = false →
      create_shifts start_date end_date shift_requests users group_id
        created_by now optimal value = []) ∧
    ((∀ k ∈ shiftVarKeys start_date end_date shift_requests users,
        value k = false) →
      create_shifts start_date end_date shift_requests users group_id
        created_by now optimal value = []) ∧
    (optimal = true →
      (create_shifts start_date end_date shift_requests users group_id
        created_by now optimal value).length =
        ((shiftVarKeys start_date end_date shift_requests users).filter
          value).length ∧
      ∀ sh ∈ create_shifts start_date end_date shift_requests users
          group_id created_by now optimal value,
        sh.status = ShiftStatus.draft ∧ sh.group_id = group_id ∧
        sh.created_by = created_by ∧
        ∃ r ∈ shift_requests, r.user_id = sh.user_id ∧ r.date = sh.date ∧
          sh.start_time = r.start_time ∧ sh.end_time = r.end_time) := by
  refine ⟨?_, ?_, ?_⟩
  · intro h
    subst h
    rfl
  · intro hall
    cases optimal with
    | false => rfl
    | true =>
        unfold create_shifts
        rw [if_pos rfl]
        rw [List.flatMap_eq_nil_iff]
        intro k hk
        unfold varShift
        rw [hall k hk]
        rfl
  · intro h
    subst h
    constructor
    · unfold create_shifts
      rw [if_pos rfl]
      exact flatMap_varShift_length _ _ _ _ _ _
        (fun k hk => by
          obtain ⟨r, hr, hid, _, _⟩ :=
            mem_shiftVarKeys start_date end_date shift_requests users k hk
          exact ⟨r, hr, hid⟩)
    · intro sh hsh
      unfold create_shifts at hsh
      rw [if_pos rfl] at hsh
      obtain ⟨k, hk, hshk⟩ := List.mem_flatMap.mp hsh
      obtain ⟨rg, hrg, hgid, hguser, hgdate⟩ :=
        mem_shiftVarKeys start_date end_date shift_requests users k hk
      unfold varShift at hshk
      by_cases hv : value k = true
      · rw [if_pos hv] at hshk
        have hfind : shift_requests.find? (fun x => x.id == k.2.2) =
            some rg := by
          have := find?_of_nodup_ids shift_requests hnodup rg hrg
          rwa [hgid] at this
        rw [hfind] at hshk
        rcases List.mem_singleton.mp hshk with rfl
        refine ⟨rfl, rfl, rfl, rg, hrg, ?_, ?_, rfl, rfl⟩
        · exact hguser
        · exact hgdate
      · rw [if_neg hv] at hshk
        cases hshk

/-- Active user for the C3 witness. -/
def optUser : User :=
  { id := 1, name := "A" }

/-- Pending availability request for the C3 witness. -/
def optRequest : ShiftRequest :=
  { id := 81, user_id := 1, date := daysFromCivil 2024 3 4,
    start_time := some ⟨9, 0⟩, end_time := some ⟨17, 0⟩ }

/-- Witness for C3: one user, one request, an optimal solve selecting
every variable — the result holds exactly one shift per selected key. -/
theorem create_shifts_spec_witness :
    (create_shifts (daysFromCivil 2024 3 4) (daysFromCivil 2024 3 4)
      [optRequest] [optUser] "go" 9 5 true (fun _ => true)).length =
      ((shiftVarKeys (daysFromCivil 2024 3 4) (daysFromCivil 2024 3 4)
        [optRequest] [optUser]).filter (fun _ => true)).length := by
  have h := create_shifts_spec (daysFromCivil 2024 3 4)
    (daysFromCivil 2024 3 4) [optRequest] [optUser] "go" 9 5 true
    (fun _ => true) (by decide)
  exact (h.2.2 rfl).1
